import Mathlib

/-!
# scap-workbench: scan supervision and progress estimation

A shallow embedding of

* `MainWindow::scanAsync`, `MainWindow::clearResults`,
  `MainWindow::scanProgressReport` and `MainWindow::refreshProfiles`
  (src/src/MainWindow.cpp), together with the part of Qt's `QProgressBar`,
  `QTreeWidget` and `QComboBox` and of `std::map` these functions drive;
* `OscapScannerLocal::evaluate` (src/src/OscapScannerLocal.cpp), run against a
  scripted `oscap` child process.

Definitions come first, theorems follow.
-/

namespace ScapWorkbench

/-! ## Qt widgets used by `MainWindow` -/

/-- The smallest value of a C++ `int` (32 bits). -/
def INT_MIN : Int := -2147483648

/-- The three integers a `QProgressBar` keeps: `minimum`, `maximum`, `value`. -/
structure QProgressBar where
  minimum : Int
  maximum : Int
  value : Int
deriving DecidableEq, Repr

/-- Qt, `QProgressBar::reset()`: the bar rewinds to "no progress", which Qt
stores as `value = minimum - 1` (and as `INT_MIN` when `minimum` is `INT_MIN`). -/
def QProgressBar.reset (b : QProgressBar) : QProgressBar :=
  { b with value := if b.minimum = INT_MIN then INT_MIN else b.minimum - 1 }

/-- Qt, `QProgressBar::setRange(minimum, maximum)`: nothing happens when the
range is unchanged; otherwise `maximum` becomes `qMax(minimum, maximum)` and the
bar is reset when the current value falls outside `minimum - 1 .. maximum`. -/
def QProgressBar.setRange (b : QProgressBar) (minimum maximum : Int) : QProgressBar :=
  if minimum ≠ b.minimum ∨ maximum ≠ b.maximum then
    let b1 : QProgressBar := { b with minimum := minimum, maximum := max minimum maximum }
    if b1.value < b1.minimum - 1 ∨ b1.value > b1.maximum then b1.reset else b1
  else b

/-- Qt, `QProgressBar::setValue(value)`: the call is ignored when the value is
the current one, or when it lies outside `minimum .. maximum` (unless both
bounds are 0, the "busy" bar, which accepts every value). -/
def QProgressBar.setValue (b : QProgressBar) (value : Int) : QProgressBar :=
  if b.value = value ∨
      ((value > b.maximum ∨ value < b.minimum) ∧ (b.maximum ≠ 0 ∨ b.minimum ≠ 0)) then b
  else { b with value := value }

/-- A `QStringList`. -/
abbrev QStringList := List String

/-- Qt, `QTreeWidget::findItems(text, Qt::MatchExactly, 0)` on a tree that only
has top-level items: the rows whose column 0 holds exactly `text`. -/
def findItems (tree : List QStringList) (text : String) : List QStringList :=
  tree.filter (fun row => decide (row.head? = some text))

/-- Column 0 of every row of a results tree. -/
def firstColumn (tree : List QStringList) : List String :=
  tree.filterMap List.head?

/-! ## `MainWindow` -/

/-- An XCCDF item as far as `scanProgressReport` looks at it: its preferred
plain-text title. -/
structure XccdfItem where
  title : String
deriving DecidableEq, Repr

/-- The loaded benchmark, taken as a parameter: the lookup
`xccdf_benchmark_get_member(benchmark, XCCDF_ITEM, rule_id.toUtf8().constData())`
as a function of `rule_id`; `none` is the null pointer. -/
abbrev Benchmark := String → Option XccdfItem

/-- The part of `MainWindow` the scan slots read and write: the progress bar,
the top-level rows of `ruleResultsTree` (one `QStringList` per row) and the
messages shown so far through `scanWarningMessage`. -/
structure MainWindow where
  progressBar : QProgressBar
  ruleResultsTree : List QStringList
  warnings : List String
deriving DecidableEq, Repr

/-- `MainWindow::clearResults`: `mUI.ruleResultsTree->clear()` (the widget
visibility switches around it hold no scan state). -/
def clearResults (w : MainWindow) : MainWindow :=
  { w with ruleResultsTree := [] }

/-- `MainWindow::scanAsync`, lines 198-207: the results are cleared, the
progress bar gets the range `0 .. selectedRulesCount` and is reset. -/
def scanAsync (selectedRulesCount : Int) (w : MainWindow) : MainWindow :=
  let w1 := clearResults w
  { w1 with progressBar := (w1.progressBar.setRange 0 selectedRulesCount).reset }

/-- `MainWindow::scanWarningMessage`: the message is shown in a warning box. -/
def scanWarningMessage (w : MainWindow) (message : String) : MainWindow :=
  { w with warnings := w.warnings ++ [message] }

/-- The text of the warning for an identifier that the benchmark lacks:
`QString("... '%1'. ...").arg(rule_id)`. -/
def unknownRuleWarning (rule_id : String) : String :=
  "Received scanning progress of rule of ID '" ++ rule_id ++
    "'. Rule with such ID hasn't been found in the benchmark!"

/-- `MainWindow::scanProgressReport`. The sum `value() + 1` is taken in `Int`; a
C++ `int` holds it as long as the bar is below `2^31 - 1`. -/
def scanProgressReport (benchmark : Benchmark) (w : MainWindow)
    (rule_id result : String) : MainWindow :=
  match benchmark rule_id with
  | none => scanWarningMessage w (unknownRuleWarning rule_id)
  | some item =>
    -- only count each rule result once for progress estimation
    let w1 : MainWindow :=
      if (findItems w.ruleResultsTree rule_id).isEmpty then
        { w with progressBar := w.progressBar.setValue (w.progressBar.value + 1) }
      else w
    let resultRow : QStringList := [rule_id, item.title, result]
    { w1 with ruleResultsTree := w1.ruleResultsTree ++ [resultRow] }

/-- The slot called once per delivered report, in order. -/
def scanProgressReports (benchmark : Benchmark) (w : MainWindow) :
    List (String × String) → MainWindow
  | [] => w
  | r :: rest => scanProgressReports benchmark (scanProgressReport benchmark w r.1 r.2) rest

/-- The progress value read after each report of a sequence. -/
def progressValues (benchmark : Benchmark) (w : MainWindow) :
    List (String × String) → List Int
  | [] => []
  | r :: rest =>
    let w1 := scanProgressReport benchmark w r.1 r.2
    w1.progressBar.value :: progressValues benchmark w1 rest

/-- The identifiers of a report sequence that the benchmark knows, in order. -/
def knownIds (benchmark : Benchmark) (reports : List (String × String)) : List String :=
  (reports.map Prod.fst).filter (fun id => (benchmark id).isSome)

/-- Number of distinct identifiers reported that the benchmark knows. -/
def distinctKnown (benchmark : Benchmark) (reports : List (String × String)) : Nat :=
  (knownIds benchmark reports).toFinset.card

/-! ### The scenario of the specification: three rules A, B, C -/

/-- A benchmark holding exactly the rules A, B and C. -/
def abcBenchmark : Benchmark := fun id =>
  if id = "A" then some { title := "Rule A" }
  else if id = "B" then some { title := "Rule B" }
  else if id = "C" then some { title := "Rule C" }
  else none

/-- The reports A=pass, B=fail, A=pass (multi-check), C=pass. -/
def abcReports : List (String × String) :=
  [("A", "pass"), ("B", "fail"), ("A", "pass"), ("C", "pass")]

/-- A main window before any scan: a bar with Qt's default range `0 .. 100`
after the `mUI.progressBar->reset()` of the constructor, no rows, no warnings. -/
def freshWindow : MainWindow :=
  { progressBar := { minimum := 0, maximum := 100, value := -1 },
    ruleResultsTree := [], warnings := [] }

/-! ## `OscapScannerLocal` -/

/-- A `QByteArray`: a sequence of bytes. -/
abbrev QByteArray := List Nat

/-- The three scratch files of `evaluate`. -/
inductive ScratchFile
  | resultFile
  | reportFile
  | arfFile
deriving DecidableEq, Repr

/-- What `evaluate` does that an observer can see, in order: the signals it
emits, the requests it makes to the child process, the inspection of the exit
code and the read-back of a scratch file. `signalCompletion` belongs to the
scanner base class, which is not in src/; following the specification it is one
signal to the hosting context that carries the boolean it is given. -/
inductive Step
  | infoMessage (message : String)
  | warningMessage (message : String)
  | errorMessage (message : String)
  | progressReport (rule_id result : String)
  | signalCompletion (canceled : Bool)
  | processStart
  | processTerminate
  | processKill
  | exitCode
  | readAll (file : ScratchFile)
deriving DecidableEq, Repr

/-- Whether a step relays output of the child process: a progress report (a
stdout line) or a warning (a stderr line). -/
def Step.isOutput : Step → Bool
  | Step.progressReport _ _ => true
  | Step.warningMessage _ => true
  | _ => false

/-- What one iteration of the poll loop finds: the complete stdout lines that
have arrived (each already split into rule identifier and verdict), the stderr
lines that have arrived, and whether pumping the event queue delivered a
`cancel()` request. The slot `cancel()` belongs to the scanner base class, which
is not in src/; following the specification it sets `mCancelRequested`. -/
structure Tick where
  stdoutLines : List (String × String)
  stderrLines : List String
  cancelDelivered : Bool
deriving DecidableEq, Repr

/-- The scripted `oscap` child process and its surroundings, as `evaluate`
meets them: the answer of the k-th `waitForFinished(pollInterval)` call of the
poll loop, what the k-th iteration finds, the answer of the k-th
`waitForFinished(pollInterval)` call of the escalation loop, the exit code, the
output still unread when the process has finished, and the contents of the
three scratch files. -/
structure Process where
  waitForFinished : Nat → Bool
  tick : Nat → Tick
  waitForFinishedAfterCancel : Nat → Bool
  exitCode : Int
  stdoutLeft : List (String × String)
  stderrLeft : List String
  resultFile : QByteArray
  reportFile : QByteArray
  arfFile : QByteArray

/-- The fields of `OscapScannerLocal` that `evaluate` touches. -/
structure OscapScannerLocal where
  mCancelRequested : Bool
  mResults : QByteArray
  mReport : QByteArray
  mARF : QByteArray
deriving DecidableEq, Repr

/-- The constant `pollInterval` of `evaluate`, in milliseconds. -/
def pollInterval : Nat := 100

/-- Modelled from the spec: `OscapScannerBase::tryToReadLine`, which is not in
src/, called as `while (tryToReadLine(process));`. Each stdout line that has
arrived is routed to the progress step, one `progressReport` per line. -/
def tryToReadLines (lines : List (String × String)) : List Step :=
  lines.map (fun l => Step.progressReport l.1 l.2)

/-- Modelled from the spec: `OscapScannerBase::watchStdErr`, which is not in
src/. Each stderr line that has arrived is surfaced as a warning event. -/
def watchStdErr (lines : List String) : List Step :=
  lines.map Step.warningMessage

/-- The steps of the body of the poll loop at iteration `k`, before the
cancellation flag is looked at (lines 74-76). -/
def readEverythingNew (p : Process) (k : Nat) : List Step :=
  tryToReadLines (p.tick k).stdoutLines ++ watchStdErr (p.tick k).stderrLines

/-- The steps of the bodies of the `d` iterations `k, k + 1, ..` of the poll loop
in which the flag is not seen set. -/
def readTicks (p : Process) : Nat → Nat → List Step
  | _, 0 => []
  | k, d + 1 => readEverythingNew p k ++ readTicks p (k + 1) d

/-- The two steps taken when the poll loop sees the cancellation flag
(lines 83-86). -/
def cancelNotice : List Step :=
  [Step.infoMessage "Cancelation was requested! Terminating scanning...",
   Step.processTerminate]

/-- The poll loop of `evaluate`, lines 72-89, from its iteration `k` on, with
`cancel` the current value of `mCancelRequested`. The result is the value of
`mCancelRequested` when the loop is left and the steps taken; `none` when the
fuel runs out first. -/
def pollLoop (p : Process) : Nat → Nat → Bool → Option (Bool × List Step)
  | 0, _, _ => none
  | fuel + 1, k, cancel =>
    if p.waitForFinished k then some (cancel, [])
    else
      -- processEvents may run the cancel() slot, which sets the flag
      let cancel1 := cancel || (p.tick k).cancelDelivered
      if cancel1 then
        some (true, readEverythingNew p k ++ cancelNotice)
      else
        match pollLoop p fuel (k + 1) cancel1 with
        | none => none
        | some (c, steps) => some (c, readEverythingNew p k ++ steps)

/-- What the escalation loop leaves behind: the local `killed`, the local
`waited`, the number of `waitForFinished` calls it made and the steps taken. -/
structure Escalation where
  killed : Bool
  waited : Nat
  polls : Nat
  steps : List Step
deriving DecidableEq, Repr

/-- The two steps taken when the grace window is used up (lines 100-102). -/
def killSteps : List Step :=
  [Step.warningMessage "The oscap process didn't terminate in time, it will be killed instead.",
   Step.processKill]

/-- The escalation loop of `evaluate`, lines 95-106, from its iteration `k` on
with the local `waited` as given (an `unsigned int` that stays below 3200);
`none` when the fuel runs out first. -/
def escalationLoop (p : Process) : Nat → Nat → Nat → Option Escalation
  | 0, _, _ => none
  | fuel + 1, k, waited =>
    if p.waitForFinishedAfterCancel k then
      some { killed := false, waited := waited, polls := k + 1, steps := [] }
    else
      let waited1 := waited + pollInterval
      if waited1 > 3000 then
        some { killed := true, waited := waited1, polls := k + 1, steps := killSteps }
      else escalationLoop p fuel (k + 1) waited1

/-- The branch of `evaluate` taken when `mCancelRequested` is set, lines 93-109:
the escalation loop, then the informational event unless the process was
killed. -/
def cancelBranch (p : Process) (fuel : Nat) : Option Escalation :=
  match escalationLoop p fuel 0 0 with
  | none => none
  | some e =>
    if !e.killed then
      some { e with steps := e.steps ++
        [Step.infoMessage "Scanning canceled, the oscap tool has been successfuly terminated."] }
    else some e

/-- The steps of `evaluate` up to the poll loop, lines 44-71. -/
def startSteps : List Step :=
  [Step.infoMessage "Creating temporary files...",
   Step.infoMessage "Starting the oscap process...",
   Step.processStart,
   Step.infoMessage "Scanning..."]

/-- The text of the error event of `evaluate`. -/
def exitCodeOneError : String :=
  "There was an error during evaluation! Exit code of the 'oscap' process was 1."

/-- The steps of the branch for an exit code other than 1, lines 123-141. -/
def finishSteps (p : Process) : List Step :=
  tryToReadLines p.stdoutLeft ++ watchStdErr p.stderrLeft ++
    [Step.infoMessage "The oscap tool has finished. Reading results...",
     Step.readAll ScratchFile.resultFile,
     Step.readAll ScratchFile.reportFile,
     Step.readAll ScratchFile.arfFile,
     Step.infoMessage "Scanning has been finished!"]

/-- `OscapScannerLocal::evaluate`: the scanner after the call and the steps
taken, in order; `none` when a loop runs out of fuel. -/
def evaluate (p : Process) (fuel : Nat) (s : OscapScannerLocal) :
    Option (OscapScannerLocal × List Step) :=
  match pollLoop p fuel 0 s.mCancelRequested with
  | none => none
  | some (cancel, polled) =>
    let s1 : OscapScannerLocal := { s with mCancelRequested := cancel }
    if s1.mCancelRequested then
      match cancelBranch p fuel with
      | none => none
      | some e =>
        some (s1, startSteps ++ polled ++ e.steps ++
          [Step.signalCompletion s1.mCancelRequested])
    else if p.exitCode = 1 then
      -- mark this run as canceled
      let s2 : OscapScannerLocal := { s1 with mCancelRequested := true }
      some (s2, startSteps ++ polled ++ [Step.exitCode] ++ watchStdErr p.stderrLeft ++
        [Step.errorMessage exitCodeOneError, Step.signalCompletion s2.mCancelRequested])
    else
      let s2 : OscapScannerLocal :=
        { s1 with mResults := p.resultFile, mReport := p.reportFile, mARF := p.arfFile }
      some (s2, startSteps ++ polled ++ [Step.exitCode] ++ finishSteps p ++
        [Step.signalCompletion s2.mCancelRequested])

/-- Number of error events among the steps. -/
def errorCount (steps : List Step) : Nat :=
  (steps.filter (fun x => match x with
    | Step.errorMessage _ => true
    | _ => false)).length

/-- The steps that are signals emitted to the controller (everything but the
requests to the process, the exit code inspection and the file reads). -/
def emitted (steps : List Step) : List Step :=
  steps.filter (fun x => match x with
    | Step.infoMessage _ => true
    | Step.warningMessage _ => true
    | Step.errorMessage _ => true
    | Step.progressReport _ _ => true
    | Step.signalCompletion _ => true
    | _ => false)

/-! ### Scripted processes used as concrete inputs -/

/-- A scanner before its first run: no cancellation requested, empty buffers. -/
def idleScanner : OscapScannerLocal :=
  { mCancelRequested := false, mResults := [], mReport := [], mARF := [] }

/-- A process that runs through two poll intervals, reporting rule A and a
stderr line, and then finishes with the given exit code. -/
def finishingProcess (exitCode : Int) : Process :=
  { waitForFinished := fun k => decide (2 ≤ k),
    tick := fun k =>
      if k = 0 then { stdoutLines := [("A", "pass")], stderrLines := [], cancelDelivered := false }
      else { stdoutLines := [], stderrLines := ["W: probe"], cancelDelivered := false },
    waitForFinishedAfterCancel := fun _ => true,
    exitCode := exitCode,
    stdoutLeft := [("B", "fail")],
    stderrLeft := ["E: last"],
    resultFile := [1, 2],
    reportFile := [3],
    arfFile := [4, 5, 6] }

/-- A process that never finishes on its own; the user cancels during the
second poll interval, and the process answers the terminate request at the
`answerAt`-th poll of the escalation loop (counted from 0), if ever. -/
def canceledProcess (answerAt : Option Nat) : Process :=
  { waitForFinished := fun _ => false,
    tick := fun k =>
      if k = 0 then { stdoutLines := [("A", "pass")], stderrLines := [], cancelDelivered := false }
      else { stdoutLines := [], stderrLines := ["W: probe"], cancelDelivered := true },
    waitForFinishedAfterCancel := fun k => decide (answerAt = some k),
    exitCode := 0,
    stdoutLeft := [],
    stderrLeft := [],
    resultFile := [1, 2],
    reportFile := [3],
    arfFile := [4, 5, 6] }

/-! ## `MainWindow::refreshProfiles` -/

/-- Qt, `QString::operator==` on strings that may be null (`none`): a null
string and an empty string are equal; only `isNull()` tells them apart. -/
def qStringEq (a b : Option String) : Bool :=
  a.getD "" == b.getD ""

/-- A `QComboBox` as far as `refreshProfiles` uses it: the items in order, each
with its text and its user data (a `QVariant` holding a `QString`, `none` for
the null string), and the current index (-1 when there is none). -/
structure QComboBox where
  items : List (String × Option String)
  currentIndex : Int
deriving DecidableEq, Repr

/-- Qt, `QComboBox::clear()`: no items, no current index. -/
def QComboBox.clear (_box : QComboBox) : QComboBox :=
  { items := [], currentIndex := -1 }

/-- Qt, `QComboBox::addItem(text, userData)`: the item is appended; when the
box was empty the new item becomes the current one. -/
def QComboBox.addItem (box : QComboBox) (text : String) (userData : Option String) :
    QComboBox :=
  { items := box.items ++ [(text, userData)],
    currentIndex := if box.items.isEmpty then 0 else box.currentIndex }

/-- Qt, `QComboBox::itemData(index).toString()`: the user data of the item, the
null string when there is no such item. -/
def QComboBox.itemData (box : QComboBox) (index : Int) : Option String :=
  if 0 ≤ index then (box.items[index.toNat]?).bind Prod.snd else none

/-- The search of `findData` from position `i` on. -/
def findDataFrom : List (String × Option String) → Option String → Int → Int
  | [], _, _ => -1
  | item :: rest, data, i =>
    if qStringEq item.2 data then i else findDataFrom rest data (i + 1)

/-- Qt, `QComboBox::findData(data)`: the index of the first item whose user
data equals `data`, -1 when there is none. -/
def QComboBox.findData (box : QComboBox) (data : Option String) : Int :=
  findDataFrom box.items data 0

/-- Qt, `QComboBox::setCurrentIndex(index)`: an index outside the items leaves
the box without a current item. -/
def QComboBox.setCurrentIndex (box : QComboBox) (index : Int) : QComboBox :=
  { box with currentIndex := if 0 ≤ index ∧ index < box.items.length then index else -1 }

/-- The `std::map<QString, QString>` named `profileCrossMap`: its entries in
iteration order, that is, in ascending order of key. -/
abbrev ProfileCrossMap := List (String × String)

/-- The member `find` of `std::map`, for the key order `lt`: the entry whose key
is equivalent to `key` (neither is less than the other), if any. -/
def mapFind (lt : String → String → Bool) : ProfileCrossMap → String → Option (String × String)
  | [], _ => none
  | entry :: rest, key =>
    if lt entry.1 key then mapFind lt rest key
    else if lt key entry.1 then none
    else some entry

/-- The member `insert` of `std::map`, for the key order `lt`: the pair is put
at its place in the order, unless an entry with an equivalent key exists. -/
def mapInsert (lt : String → String → Bool) :
    ProfileCrossMap → String → String → ProfileCrossMap
  | [], key, value => [(key, value)]
  | entry :: rest, key, value =>
    if lt entry.1 key then entry :: mapInsert lt rest key value
    else if lt key entry.1 then (key, value) :: entry :: rest
    else entry :: rest

/-- The statement `map[key] += suffix`, for the key order `lt`: `operator[]`
gives the value of the entry for `key`, creating an empty one when there is
none, and the suffix is appended to it. -/
def mapAppend (lt : String → String → Bool) :
    ProfileCrossMap → String → String → ProfileCrossMap
  | [], key, suffix => [(key, "" ++ suffix)]
  | entry :: rest, key, suffix =>
    if lt entry.1 key then entry :: mapAppend lt rest key suffix
    else if lt key entry.1 then (key, "" ++ suffix) :: entry :: rest
    else (entry.1, entry.2 ++ suffix) :: rest

/-- The policy model of the session as far as `refreshProfiles` reads it: the
profile identifiers of the tailoring, in iteration order (`none` when
`xccdf_policy_model_get_tailoring` gives a null pointer), and those of the
benchmark, each already converted to a `QString`. -/
structure PolicyModel where
  tailoring : Option (List String)
  benchmark : List String
deriving DecidableEq, Repr

/-- The loop over the tailoring profiles, lines 329-342; `none` when the
`assert` fails. -/
def tailoringLoop (lt : String → String → Bool) :
    List String → ProfileCrossMap → Option ProfileCrossMap
  | [], profileCrossMap => some profileCrossMap
  | profile_id :: rest, profileCrossMap =>
    if (mapFind lt profileCrossMap profile_id).isSome then none
    else tailoringLoop lt rest (mapInsert lt profileCrossMap profile_id profile_id)

/-- The map after lines 325-344: empty when the policy model has no tailoring,
filled by the tailoring loop otherwise. -/
def tailoringMap (lt : String → String → Bool) :
    Option (List String) → Option ProfileCrossMap
  | some profiles => tailoringLoop lt profiles []
  | none => some []

/-- The loop over the benchmark profiles, lines 348-367. -/
def benchmarkLoop (lt : String → String → Bool) :
    List String → ProfileCrossMap → ProfileCrossMap
  | [], profileCrossMap => profileCrossMap
  | profile_id :: rest, profileCrossMap =>
    if (mapFind lt profileCrossMap profile_id).isSome then
      -- this profile is being shadowed by the tailoring file
      benchmarkLoop lt rest (mapAppend lt profileCrossMap profile_id " (tailored)")
    else
      benchmarkLoop lt rest (mapInsert lt profileCrossMap profile_id profile_id)

/-- The loop over the map, lines 374-379: one item per entry, in map order. -/
def addProfileItems : ProfileCrossMap → QComboBox → QComboBox
  | [], box => box
  | entry :: rest, box => addProfileItems rest (box.addItem entry.2 (some entry.1))

/-- The end of `refreshProfiles`, lines 381-386: when the previously selected
identifier is not the null string and `findData` finds it, its item becomes the
current one. -/
def selectPrevious (previouslySelected : Option String) (box : QComboBox) : QComboBox :=
  -- previouslySelected != QString::Null()
  if previouslySelected.isSome then
    let indexCandidate := box.findData previouslySelected
    if indexCandidate ≠ -1 then box.setCurrentIndex indexCandidate else box
  else box

/-- `MainWindow::refreshProfiles` on `mUI.profileComboBox`, with `mSession` the
policy model of the session (`none` when there is no session) and `lt` Qt's
`QString::operator<`, the key order of the map, taken as a parameter. The
result is `none` when the `assert` of the tailoring loop fails. The slot
`profileComboboxChanged`, which the box calls when its current index changes,
writes to the session only and is left out. -/
def refreshProfiles (lt : String → String → Bool) (mSession : Option PolicyModel)
    (profileComboBox : QComboBox) : Option QComboBox :=
  let previousIndex := profileComboBox.currentIndex
  let previouslySelected : Option String :=
    if previousIndex = -1 then none else profileComboBox.itemData previousIndex
  let box0 := profileComboBox.clear
  match mSession with
  | none => some box0
  | some pmodel =>
    let box1 := box0.addItem "(default)" none
    match tailoringMap lt pmodel.tailoring with
    | none => none
    | some map1 =>
      let profileCrossMap := benchmarkLoop lt pmodel.benchmark map1
      let box2 := addProfileItems profileCrossMap box1
      some (selectPrevious previouslySelected box2)

/-- The order of strings by their characters, first difference first: the
order of `QString::operator<` on strings of the Basic Multilingual Plane. -/
def codePointLess (a b : String) : Bool :=
  decide (a.toList < b.toList)

/-- A session whose benchmark holds a profile with the empty identifier. -/
def emptyIdModel : PolicyModel :=
  { tailoring := none, benchmark := ["", "a"] }

/-- A profile box in which the profile with the empty identifier is selected. -/
def boxWithEmptyId : QComboBox :=
  { items := [("(default)", none), ("", some ""), ("a", some "a")], currentIndex := 1 }

/-! ## Facts about `MainWindow::scanProgressReport` -/

theorem findItems_isEmpty_iff (tree : List QStringList) (text : String) :
    (findItems tree text).isEmpty = true ↔ text ∉ firstColumn tree := by
  induction tree with
  | nil => simp [findItems, firstColumn]
  | cons row rest ih =>
    simp only [findItems, firstColumn] at ih ⊢
    by_cases h : row.head? = some text
    · simp [List.filter_cons, List.filterMap_cons, h]
    · rw [List.filter_cons]
      simp only [h, decide_False, Bool.false_eq_true, if_false]
      rw [ih]
      cases hr : row.head? with
      | none => simp [List.filterMap_cons, hr]
      | some x =>
        have hx : x ≠ text := by
          intro hxt
          exact h (by rw [hr, hxt])
        simp [List.filterMap_cons, hr, Ne.symm hx]

theorem scanProgressReport_not_found (benchmark : Benchmark) (w : MainWindow)
    (rule_id result : String) (h : benchmark rule_id = none) :
    scanProgressReport benchmark w rule_id result =
      { w with warnings := w.warnings ++ [unknownRuleWarning rule_id] } := by
  simp [scanProgressReport, h, scanWarningMessage]

theorem scanProgressReport_tree (benchmark : Benchmark) (w : MainWindow)
    (rule_id result : String) :
    (scanProgressReport benchmark w rule_id result).ruleResultsTree =
      match benchmark rule_id with
      | some item => w.ruleResultsTree ++ [[rule_id, item.title, result]]
      | none => w.ruleResultsTree := by
  unfold scanProgressReport
  cases benchmark rule_id with
  | none => simp [scanWarningMessage]
  | some item =>
    simp only
    split_ifs <;> rfl

theorem scanProgressReport_bar (benchmark : Benchmark) (w : MainWindow)
    (rule_id result : String) :
    (scanProgressReport benchmark w rule_id result).progressBar =
      if (benchmark rule_id).isSome ∧ rule_id ∉ firstColumn w.ruleResultsTree then
        w.progressBar.setValue (w.progressBar.value + 1)
      else w.progressBar := by
  unfold scanProgressReport
  cases hb : benchmark rule_id with
  | none => simp [scanWarningMessage]
  | some item =>
    simp only [Option.isSome_some, true_and]
    by_cases hm : rule_id ∈ firstColumn w.ruleResultsTree
    · have : ¬ (findItems w.ruleResultsTree rule_id).isEmpty = true := by
        rw [findItems_isEmpty_iff]; exact not_not.mpr hm
      simp [this, hm]
    · have : (findItems w.ruleResultsTree rule_id).isEmpty = true := by
        rw [findItems_isEmpty_iff]; exact hm
      simp [this, hm]

theorem scanProgressReports_append (benchmark : Benchmark) (w : MainWindow)
    (l1 l2 : List (String × String)) :
    scanProgressReports benchmark w (l1 ++ l2) =
      scanProgressReports benchmark (scanProgressReports benchmark w l1) l2 := by
  induction l1 generalizing w with
  | nil => rfl
  | cons r rest ih => simp [scanProgressReports, ih]

/-- The bar and the rows after a sequence of reports depend on the bar and the
rows before it only, not on the warnings shown. -/
theorem scanProgressReports_congr (benchmark : Benchmark) (w1 w2 : MainWindow)
    (hb : w1.progressBar = w2.progressBar) (ht : w1.ruleResultsTree = w2.ruleResultsTree)
    (reports : List (String × String)) :
    (scanProgressReports benchmark w1 reports).progressBar =
        (scanProgressReports benchmark w2 reports).progressBar ∧
      (scanProgressReports benchmark w1 reports).ruleResultsTree =
        (scanProgressReports benchmark w2 reports).ruleResultsTree := by
  induction reports generalizing w1 w2 with
  | nil => exact ⟨hb, ht⟩
  | cons r rest ih =>
    simp only [scanProgressReports]
    apply ih
    · rw [scanProgressReport_bar, scanProgressReport_bar, hb, ht]
    · rw [scanProgressReport_tree, scanProgressReport_tree, ht]

theorem scanProgressReports_tree_length (benchmark : Benchmark) (w : MainWindow)
    (reports : List (String × String)) :
    (scanProgressReports benchmark w reports).ruleResultsTree.length =
      w.ruleResultsTree.length + (knownIds benchmark reports).length := by
  induction reports generalizing w with
  | nil => simp [scanProgressReports, knownIds]
  | cons r rest ih =>
    simp only [scanProgressReports]
    rw [ih, scanProgressReport_tree]
    cases hb : benchmark r.1 with
    | none => simp [knownIds, List.filter_cons, hb]
    | some item =>
      simp [knownIds, List.filter_cons, hb]
      omega

theorem scanAsync_state (n : Int) (w : MainWindow)
    (hw : w.progressBar.minimum ≤ w.progressBar.maximum) :
    (scanAsync n w).progressBar = { minimum := 0, maximum := max 0 n, value := -1 } ∧
      (scanAsync n w).ruleResultsTree = [] := by
  refine ⟨?_, rfl⟩
  have h0 : ¬ ((0 : Int) = INT_MIN) := by decide
  simp only [scanAsync, clearResults, QProgressBar.setRange, QProgressBar.reset]
  split_ifs <;> simp_all

/-- The progress value moves by the number of known identifiers of the
sequence that are not yet in column 0 of the table, as long as the range of
the bar has room for them. -/
theorem scanProgressReports_value (benchmark : Benchmark)
    (reports : List (String × String)) (w : MainWindow)
    (hmin : w.progressBar.minimum = 0) (hv : -1 ≤ w.progressBar.value)
    (hmax : w.progressBar.value +
        (((knownIds benchmark reports).toFinset \
          (firstColumn w.ruleResultsTree).toFinset).card : Int) ≤ w.progressBar.maximum) :
    (scanProgressReports benchmark w reports).progressBar.value =
      w.progressBar.value +
        (((knownIds benchmark reports).toFinset \
          (firstColumn w.ruleResultsTree).toFinset).card : Int) := by
  induction reports generalizing w with
  | nil => simp [scanProgressReports, knownIds]
  | cons r rest ih =>
    simp only [scanProgressReports]
    cases hb : benchmark r.1 with
    | none =>
      have hk : knownIds benchmark (r :: rest) = knownIds benchmark rest := by
        simp [knownIds, List.filter_cons, hb]
      rw [hk] at hmax ⊢
      rw [scanProgressReport_not_found benchmark w r.1 r.2 hb]
      exact ih _ hmin hv hmax
    | some item =>
      have hk : knownIds benchmark (r :: rest) = r.1 :: knownIds benchmark rest := by
        simp [knownIds, List.filter_cons, hb]
      rw [hk] at hmax ⊢
      have htree : (scanProgressReport benchmark w r.1 r.2).ruleResultsTree =
          w.ruleResultsTree ++ [[r.1, item.title, r.2]] := by
        rw [scanProgressReport_tree, hb]
      have hcol : (firstColumn (scanProgressReport benchmark w r.1 r.2).ruleResultsTree).toFinset =
          insert r.1 (firstColumn w.ruleResultsTree).toFinset := by
        rw [htree]
        ext x
        simp only [firstColumn, List.filterMap_append, List.filterMap_cons, List.head?_cons,
          List.filterMap_nil, List.toFinset_append, List.toFinset_cons, List.toFinset_nil,
          Finset.mem_union, Finset.mem_insert, Finset.not_mem_empty, or_false]
        tauto
      have hbar := scanProgressReport_bar benchmark w r.1 r.2
      by_cases hm : r.1 ∈ firstColumn w.ruleResultsTree
      · -- a rule counted before: the bar stays, the set of counted rules too
        have hbar1 : (scanProgressReport benchmark w r.1 r.2).progressBar = w.progressBar := by
          rw [hbar]; simp [hm]
        have hS : insert r.1 (firstColumn w.ruleResultsTree).toFinset =
            (firstColumn w.ruleResultsTree).toFinset :=
          Finset.insert_eq_of_mem (List.mem_toFinset.mpr hm)
        have hset : (r.1 :: knownIds benchmark rest).toFinset \
            (firstColumn w.ruleResultsTree).toFinset =
            (knownIds benchmark rest).toFinset \ (firstColumn w.ruleResultsTree).toFinset := by
          rw [List.toFinset_cons, Finset.insert_sdiff_of_mem _ (List.mem_toFinset.mpr hm)]
        rw [hset] at hmax ⊢
        have := ih (scanProgressReport benchmark w r.1 r.2)
          (by rw [hbar1]; exact hmin) (by rw [hbar1]; exact hv)
          (by rw [hbar1, hcol, hS]; exact hmax)
        rw [this, hbar1, hcol, hS]
      · -- a rule seen for the first time
        have hnot : r.1 ∉ (firstColumn w.ruleResultsTree).toFinset := by
          simpa using hm
        have hset : (r.1 :: knownIds benchmark rest).toFinset \
            (firstColumn w.ruleResultsTree).toFinset =
            insert r.1 ((knownIds benchmark rest).toFinset \
              insert r.1 (firstColumn w.ruleResultsTree).toFinset) := by
          ext x
          simp only [List.toFinset_cons, Finset.mem_sdiff, Finset.mem_insert]
          constructor
          · rintro ⟨h1 | h1, h2⟩
            · exact Or.inl h1
            · by_cases hx : x = r.1
              · exact Or.inl hx
              · exact Or.inr ⟨h1, fun h3 => h3.elim hx h2⟩
          · rintro (h1 | ⟨h1, h2⟩)
            · exact ⟨Or.inl h1, by rw [h1]; exact hnot⟩
            · exact ⟨Or.inr h1, fun h3 => h2 (Or.inr h3)⟩
        have hcard : ((r.1 :: knownIds benchmark rest).toFinset \
            (firstColumn w.ruleResultsTree).toFinset).card =
            ((knownIds benchmark rest).toFinset \
              insert r.1 (firstColumn w.ruleResultsTree).toFinset).card + 1 := by
          rw [hset, Finset.card_insert_of_not_mem]
          simp
        rw [hcard] at hmax ⊢
        push_cast at hmax ⊢
        have hbar1 : (scanProgressReport benchmark w r.1 r.2).progressBar =
            { w.progressBar with value := w.progressBar.value + 1 } := by
          rw [hbar]
          simp only [hb, Option.isSome_some, hm, not_false_eq_true, and_self, if_true]
          unfold QProgressBar.setValue
          rw [if_neg]
          rw [hmin]
          intro hc
          rcases hc with hc | ⟨hc | hc, _⟩ <;> omega
        have := ih (scanProgressReport benchmark w r.1 r.2)
          (by rw [hbar1]; exact hmin) (by rw [hbar1]; simp only; omega)
          (by rw [hbar1, hcol]; simp only; omega)
        rw [this, hbar1, hcol]
        simp only
        omega

/-- After `scanAsync` the bar starts at -1, so the progress value stays one
behind the number of distinct known identifiers reported. -/
theorem scanAsync_progress_one_behind (benchmark : Benchmark) (n : Int) (w : MainWindow)
    (hw : w.progressBar.minimum ≤ w.progressBar.maximum)
    (reports : List (String × String))
    (hroom : (distinctKnown benchmark reports : Int) ≤ max 0 n + 1) :
    (scanProgressReports benchmark (scanAsync n w) reports).progressBar.value =
      (distinctKnown benchmark reports : Int) - 1 := by
  obtain ⟨hbar, htree⟩ := scanAsync_state n w hw
  have := scanProgressReports_value benchmark reports (scanAsync n w)
    (by rw [hbar]) (by rw [hbar]) (by
      rw [hbar, htree]
      simp only [firstColumn, List.filterMap_nil, List.toFinset_nil, Finset.sdiff_empty]
      unfold distinctKnown at hroom
      omega)
  rw [this, hbar, htree]
  simp only [firstColumn, List.filterMap_nil, List.toFinset_nil, Finset.sdiff_empty]
  unfold distinctKnown
  omega

/-! ### Claims about the progress estimation -/

/-- C1: in the scenario of the specification (3 selected rules, reports A=pass,
B=fail, A=pass, C=pass, started from the state `scanAsync` establishes) the
progress values read after each report are 0, 1, 1, 2 and not 1, 2, 2, 3: the
repeated report of A is not counted, but the bar starts at -1 after `reset()`,
so the final value 2 is one less than the 3 distinct known identifiers. -/
theorem scanProgressReport_scenario_progress :
    progressValues abcBenchmark (scanAsync 3 freshWindow) abcReports = [0, 1, 1, 2] ∧
      (scanAsync 3 freshWindow).progressBar = { minimum := 0, maximum := 3, value := -1 } ∧
      (scanProgressReports abcBenchmark (scanAsync 3 freshWindow) abcReports).progressBar.value
        = 2 ∧
      distinctKnown abcBenchmark abcReports = 3 := by
  decide

/-- C7, as stated, fails: when A is reported a second time it is already in
column 0 of the table (it has been counted), yet a row is appended; the table
ends with 4 rows for 3 distinct known identifiers. -/
theorem scanProgressReport_row_for_counted_rule :
    "A" ∈ firstColumn (scanProgressReports abcBenchmark (scanAsync 3 freshWindow)
        [("A", "pass"), ("B", "fail")]).ruleResultsTree ∧
      (scanProgressReport abcBenchmark
          (scanProgressReports abcBenchmark (scanAsync 3 freshWindow)
            [("A", "pass"), ("B", "fail")]) "A" "pass").ruleResultsTree =
        (scanProgressReports abcBenchmark (scanAsync 3 freshWindow)
            [("A", "pass"), ("B", "fail")]).ruleResultsTree ++ [["A", "Rule A", "pass"]] ∧
      (scanProgressReports abcBenchmark (scanAsync 3 freshWindow)
          abcReports).ruleResultsTree.length = 4 ∧
      distinctKnown abcBenchmark abcReports = 3 := by
  decide

/-- C7, amended: a row (identifier, resolved title, verdict) is appended for
every report whose identifier is found in the benchmark, counted before or not,
and for no other report; so after any sequence of reports the number of rows
added equals the number of reports with a known identifier, and for the reports
A=pass, B=fail, A=pass, C=pass the table ends with 4 rows. -/
theorem scanProgressReport_row_per_known_report (benchmark : Benchmark) (w : MainWindow) :
    (∀ rule_id result : String,
      (scanProgressReport benchmark w rule_id result).ruleResultsTree =
        match benchmark rule_id with
        | some item => w.ruleResultsTree ++ [[rule_id, item.title, result]]
        | none => w.ruleResultsTree) ∧
    (∀ reports : List (String × String),
      (scanProgressReports benchmark w reports).ruleResultsTree.length =
        w.ruleResultsTree.length + (knownIds benchmark reports).length) ∧
    (scanProgressReports abcBenchmark (scanAsync 3 freshWindow)
        abcReports).ruleResultsTree.length = 4 :=
  ⟨scanProgressReport_tree benchmark w, scanProgressReports_tree_length benchmark w, by decide⟩

/-- C9: for a rule identifier that the benchmark does not hold,
`scanProgressReport` shows exactly one warning, which names the identifier, and
leaves the progress bar and the results table as they were; whatever is
reported before and after it, the bar and the table end up as if the unknown
report had not occurred. -/
theorem scanProgressReport_unknown_id (benchmark : Benchmark) (w : MainWindow)
    (rule_id result : String) (h : benchmark rule_id = none) :
    (scanProgressReport benchmark w rule_id result).warnings =
        w.warnings ++ ["Received scanning progress of rule of ID '" ++ rule_id ++
          "'. Rule with such ID hasn't been found in the benchmark!"] ∧
      (scanProgressReport benchmark w rule_id result).progressBar = w.progressBar ∧
      (scanProgressReport benchmark w rule_id result).ruleResultsTree = w.ruleResultsTree ∧
      ∀ before after : List (String × String),
        (scanProgressReports benchmark w (before ++ (rule_id, result) :: after)).progressBar =
            (scanProgressReports benchmark w (before ++ after)).progressBar ∧
          (scanProgressReports benchmark w
              (before ++ (rule_id, result) :: after)).ruleResultsTree =
            (scanProgressReports benchmark w (before ++ after)).ruleResultsTree := by
  have hstep := scanProgressReport_not_found benchmark
  refine ⟨by rw [hstep w rule_id result h]; rfl, by rw [hstep w rule_id result h],
    by rw [hstep w rule_id result h], ?_⟩
  intro before after
  rw [scanProgressReports_append, scanProgressReports_append]
  simp only [scanProgressReports]
  apply scanProgressReports_congr
  · rw [hstep _ rule_id result h]
  · rw [hstep _ rule_id result h]

/-- C9 at a concrete input: the unknown identifier Z reported between A and B. -/
theorem scanProgressReport_unknown_id_witness :
    abcBenchmark "Z" = none ∧
      (scanProgressReport abcBenchmark (scanAsync 3 freshWindow) "Z" "pass").warnings =
        ["Received scanning progress of rule of ID 'Z'. Rule with such ID hasn't been found in the benchmark!"] ∧
      (scanProgressReports abcBenchmark (scanAsync 3 freshWindow)
          ([("A", "pass")] ++ ("Z", "pass") :: [("B", "fail")])).progressBar =
        (scanProgressReports abcBenchmark (scanAsync 3 freshWindow)
          ([("A", "pass")] ++ [("B", "fail")])).progressBar :=
  ⟨by decide,
    (scanProgressReport_unknown_id abcBenchmark (scanAsync 3 freshWindow) "Z" "pass"
      (by decide)).1,
    ((scanProgressReport_unknown_id abcBenchmark (scanAsync 3 freshWindow) "Z" "pass"
      (by decide)).2.2.2 [("A", "pass")] [("B", "fail")]).1⟩

/-! ## Facts about the loops of `OscapScannerLocal::evaluate` -/

theorem isOutput_of_mem_tryToReadLines (lines : List (String × String)) (x : Step)
    (h : x ∈ tryToReadLines lines) : x.isOutput = true := by
  simp only [tryToReadLines, List.mem_map] at h
  obtain ⟨l, _, rfl⟩ := h
  rfl

theorem isOutput_of_mem_watchStdErr (lines : List String) (x : Step)
    (h : x ∈ watchStdErr lines) : x.isOutput = true := by
  simp only [watchStdErr, List.mem_map] at h
  obtain ⟨l, _, rfl⟩ := h
  rfl

theorem isOutput_of_mem_readTicks (p : Process) (d k : Nat) (x : Step)
    (h : x ∈ readTicks p k d) : x.isOutput = true := by
  induction d generalizing k with
  | zero => simp [readTicks] at h
  | succ d ih =>
    simp only [readTicks, readEverythingNew, List.mem_append] at h
    rcases h with (h | h) | h
    · exact isOutput_of_mem_tryToReadLines _ x h
    · exact isOutput_of_mem_watchStdErr _ x h
    · exact ih (k + 1) h

theorem readTicks_succ_right (p : Process) (d k : Nat) :
    readTicks p k (d + 1) = readTicks p k d ++ readEverythingNew p (k + d) := by
  induction d generalizing k with
  | zero => simp [readTicks]
  | succ d ih =>
    rw [readTicks, ih (k + 1), readTicks, List.append_assoc]
    congr 3
    omega

/-- One iteration of the poll loop. -/
theorem pollLoop_succ (p : Process) (fuel k : Nat) (c : Bool) :
    pollLoop p (fuel + 1) k c =
      if p.waitForFinished k = true then some (c, [])
      else if (c || (p.tick k).cancelDelivered) = true then
        some (true, readEverythingNew p k ++ cancelNotice)
      else (pollLoop p fuel (k + 1) false).map
        (fun r => (r.1, readEverythingNew p k ++ r.2)) := by
  rw [pollLoop]
  by_cases hw : p.waitForFinished k = true
  · simp [hw]
  · by_cases hc : (c || (p.tick k).cancelDelivered) = true
    · simp [hw, hc]
    · have hcf : (c || (p.tick k).cancelDelivered) = false := by simpa using hc
      simp only [hw, Bool.false_eq_true, if_false, hcf]
      cases pollLoop p fuel (k + 1) false with
      | none => rfl
      | some r => rfl

/-- The poll loop leaves either because the process finished, with the flag
untouched, or because the flag was seen set, after the notice and the terminate
request; until then it only relays output. -/
theorem pollLoop_shape (p : Process) (fuel k : Nat) (c c1 : Bool) (steps : List Step)
    (h : pollLoop p fuel k c = some (c1, steps)) :
    ∃ j, (c1 = c ∧ steps = readTicks p k j) ∨
      (c1 = true ∧ steps = readTicks p k (j + 1) ++ cancelNotice) := by
  induction fuel generalizing k c c1 steps with
  | zero => simp [pollLoop] at h
  | succ fuel ih =>
    rw [pollLoop_succ] at h
    by_cases hw : p.waitForFinished k = true
    · simp only [hw, if_true, Option.some.injEq, Prod.mk.injEq] at h
      exact ⟨0, Or.inl ⟨h.1.symm, by rw [← h.2]; rfl⟩⟩
    · rw [if_neg hw] at h
      by_cases hc : (c || (p.tick k).cancelDelivered) = true
      · simp only [hc, if_true, Option.some.injEq, Prod.mk.injEq] at h
        exact ⟨0, Or.inr ⟨h.1.symm, by rw [← h.2]; simp [readTicks]⟩⟩
      · rw [if_neg hc] at h
        have hc0 : c = false := by
          cases c
          · rfl
          · simp at hc
        cases hrec : pollLoop p fuel (k + 1) false with
        | none => simp [hrec] at h
        | some r =>
          obtain ⟨c2, steps2⟩ := r
          simp only [hrec, Option.map_some', Option.some.injEq, Prod.mk.injEq] at h
          obtain ⟨j, hj⟩ := ih (k + 1) false c2 steps2 hrec
          refine ⟨j + 1, ?_⟩
          rcases hj with ⟨h1, h2⟩ | ⟨h1, h2⟩
          · left
            refine ⟨by rw [← h.1, h1, hc0], ?_⟩
            rw [← h.2, h2]
            rfl
          · right
            refine ⟨by rw [← h.1, h1], ?_⟩
            rw [← h.2, h2]
            simp [readTicks]

/-- The poll loop returns as soon as the flag is set, the process finishes or a
cancellation is delivered. -/
theorem pollLoop_isSome (p : Process) (d fuel k : Nat) (c : Bool)
    (hstop : c = true ∨ p.waitForFinished (k + d) = true ∨
      (p.tick (k + d)).cancelDelivered = true)
    (hfuel : d < fuel) : (pollLoop p fuel k c).isSome = true := by
  induction d generalizing fuel k c with
  | zero =>
    obtain ⟨fuel, rfl⟩ : ∃ f, fuel = f + 1 := ⟨fuel - 1, by omega⟩
    rw [pollLoop_succ]
    by_cases hw : p.waitForFinished k = true
    · simp [hw]
    · have : (c || (p.tick k).cancelDelivered) = true := by
        rcases hstop with h | h | h
        · simp [h]
        · exact absurd h hw
        · have h1 : (p.tick k).cancelDelivered = true := h
          simp [h1]
      simp [hw, this]
  | succ d ih =>
    obtain ⟨fuel, rfl⟩ : ∃ f, fuel = f + 1 := ⟨fuel - 1, by omega⟩
    rw [pollLoop_succ]
    by_cases hw : p.waitForFinished k = true
    · simp [hw]
    · by_cases hc : (c || (p.tick k).cancelDelivered) = true
      · simp [hw, hc]
      · have hc0 : c = false := by
          cases c
          · rfl
          · simp at hc
        have hrec := ih fuel (k + 1) false
          (by
            rcases hstop with h | h | h
            · rw [h] at hc0; exact absurd hc0 (by decide)
            · right; left; rw [← h]; congr 1; omega
            · right; right; rw [← h]; congr 2; omega)
          (by omega)
        rw [if_neg hw, if_neg hc]
        cases hr : pollLoop p fuel (k + 1) false with
        | none => rw [hr] at hrec; simp at hrec
        | some r => rfl

/-- The poll loop of a run that is not canceled: the process finishes at poll
`k + d`, and the loop has relayed the output of the `d` iterations before. -/
theorem pollLoop_finished (p : Process) (d fuel k : Nat)
    (hrun : ∀ i, i < d → p.waitForFinished (k + i) = false ∧
      (p.tick (k + i)).cancelDelivered = false)
    (hfin : p.waitForFinished (k + d) = true) (hfuel : d < fuel) :
    pollLoop p fuel k false = some (false, readTicks p k d) := by
  induction d generalizing fuel k with
  | zero =>
    obtain ⟨fuel, rfl⟩ : ∃ f, fuel = f + 1 := ⟨fuel - 1, by omega⟩
    have hfin1 : p.waitForFinished k = true := hfin
    simp [pollLoop_succ, hfin1, readTicks]
  | succ d ih =>
    obtain ⟨fuel, rfl⟩ : ∃ f, fuel = f + 1 := ⟨fuel - 1, by omega⟩
    have h0 : p.waitForFinished k = false ∧ (p.tick k).cancelDelivered = false :=
      hrun 0 (by omega)
    have hrec := ih fuel (k + 1)
      (fun i hi => by
        have := hrun (i + 1) (by omega)
        rw [show k + 1 + i = k + (i + 1) by omega]
        exact this)
      (by rw [show k + 1 + d = k + (d + 1) by omega]; exact hfin) (by omega)
    simp [pollLoop_succ, h0.1, h0.2, hrec, readTicks]

/-- The poll loop of a run that is canceled: the flag is seen set at some
iteration `j` not later than `d`, the process not having finished before. -/
theorem pollLoop_canceled (p : Process) (d fuel k : Nat) (c : Bool)
    (hrun : ∀ i, i ≤ d → p.waitForFinished (k + i) = false)
    (hcancel : c = true ∨ ∃ i, i ≤ d ∧ (p.tick (k + i)).cancelDelivered = true)
    (hfuel : d < fuel) :
    ∃ j, j ≤ d ∧ pollLoop p fuel k c = some (true, readTicks p k (j + 1) ++ cancelNotice) := by
  induction d generalizing fuel k c with
  | zero =>
    obtain ⟨fuel, rfl⟩ : ∃ f, fuel = f + 1 := ⟨fuel - 1, by omega⟩
    have h0 : p.waitForFinished k = false := hrun 0 (by omega)
    have hc : (c || (p.tick k).cancelDelivered) = true := by
      rcases hcancel with h | ⟨i, hi, h⟩
      · simp [h]
      · have : i = 0 := by omega
        subst this
        have h1 : (p.tick k).cancelDelivered = true := h
        simp [h1]
    refine ⟨0, le_refl _, ?_⟩
    simp [pollLoop_succ, h0, hc, readTicks]
  | succ d ih =>
    obtain ⟨fuel, rfl⟩ : ∃ f, fuel = f + 1 := ⟨fuel - 1, by omega⟩
    have h0 : p.waitForFinished k = false := hrun 0 (by omega)
    by_cases hc : (c || (p.tick k).cancelDelivered) = true
    · refine ⟨0, by omega, ?_⟩
      rw [pollLoop_succ]
      simp [h0, hc, readTicks]
    · have hc0 : c = false ∧ (p.tick k).cancelDelivered = false := by
        simpa using hc
      obtain ⟨j, hj, hrec⟩ := ih fuel (k + 1) false
        (fun i hi => by
          have := hrun (i + 1) (by omega)
          rw [show k + 1 + i = k + (i + 1) by omega]
          exact this)
        (by
          right
          rcases hcancel with h | ⟨i, hi, h⟩
          · rw [h] at hc0; exact absurd hc0.1 (by decide)
          · cases i with
            | zero =>
              have h1 : (p.tick k).cancelDelivered = true := h
              rw [h1] at hc0; exact absurd hc0.2 (by decide)
            | succ i =>
              exact ⟨i, by omega, by rw [show k + 1 + i = k + (i + 1) by omega]; exact h⟩)
        (by omega)
      refine ⟨j + 1, by omega, ?_⟩
      rw [pollLoop_succ, if_neg (by simp [h0]), if_neg hc, hrec]
      simp [readTicks]

/-- The escalation loop from its iteration `k` on, `k ≤ 30`, with
`waited = 100 * k`: it returns within the polls `k .. 30`, and kills exactly
when all of them report "not finished". -/
theorem escalationLoop_spec (p : Process) (d fuel k : Nat)
    (hk : k + d = 30) (hfuel : d < fuel) :
    ∃ e, escalationLoop p fuel k (pollInterval * k) = some e ∧
      k < e.polls ∧ e.polls ≤ 31 ∧
      (e.killed = true ↔ ∀ i, k ≤ i → i < 31 → p.waitForFinishedAfterCancel i = false) ∧
      (e.killed = true → e.waited = 3100 ∧ e.polls = 31 ∧ e.steps = killSteps) ∧
      (e.killed = false → e.waited ≤ 3000 ∧ e.steps = [] ∧
        p.waitForFinishedAfterCancel (e.polls - 1) = true) := by
  induction d generalizing fuel k with
  | zero =>
    obtain ⟨fuel, rfl⟩ : ∃ f, fuel = f + 1 := ⟨fuel - 1, by omega⟩
    have hk30 : k = 30 := by omega
    subst hk30
    unfold escalationLoop
    by_cases hw : p.waitForFinishedAfterCancel 30 = true
    · refine ⟨{ killed := false, waited := pollInterval * 30, polls := 31, steps := [] },
        by simp only [hw, if_true], by decide, by decide, ?_, ?_, ?_⟩
      · simp only [Bool.false_eq_true, false_iff, not_forall]
        exact ⟨30, by omega, by omega, by simp [hw]⟩
      · intro h; exact Bool.noConfusion h
      · intro _
        simp [pollInterval, hw]
    · have hwf : p.waitForFinishedAfterCancel 30 = false := by simpa using hw
      refine ⟨{ killed := true, waited := 3100, polls := 31, steps := killSteps },
        by simp [hwf, pollInterval], by decide, by decide, ?_, ?_, ?_⟩
      rotate_left
      · intro _; exact ⟨rfl, rfl, rfl⟩
      · intro h; exact Bool.noConfusion h
      simp only [true_iff]
      intro i hi1 hi2
      have : i = 30 := by omega
      rw [this]; exact hwf
  | succ d ih =>
    obtain ⟨fuel, rfl⟩ : ∃ f, fuel = f + 1 := ⟨fuel - 1, by omega⟩
    unfold escalationLoop
    by_cases hw : p.waitForFinishedAfterCancel k = true
    · refine ⟨{ killed := false, waited := pollInterval * k, polls := k + 1, steps := [] },
        by simp only [hw, if_true], Nat.lt_succ_self k, ?_, ?_, ?_, ?_⟩
      · show k + 1 ≤ 31
        omega
      · simp only [Bool.false_eq_true, false_iff, not_forall]
        exact ⟨k, le_refl _, by omega, by simp [hw]⟩
      · intro h; exact Bool.noConfusion h
      · intro _
        refine ⟨?_, rfl, ?_⟩
        · show pollInterval * k ≤ 3000
          simp only [pollInterval]
          omega
        · show p.waitForFinishedAfterCancel (k + 1 - 1) = true
          rw [Nat.add_sub_cancel]; exact hw
    · have hwf : p.waitForFinishedAfterCancel k = false := by simpa using hw
      obtain ⟨e, he, h1, h2, h3, h4, h5⟩ := ih fuel (k + 1) (by omega) (by omega)
      have hnot : ¬ (pollInterval * k + pollInterval > 3000) := by
        simp only [pollInterval]; omega
      refine ⟨e, ?_, by omega, h2, ?_, h4, h5⟩
      · simp only [hwf, Bool.false_eq_true, if_false, hnot]
        rw [← he]
        congr 1
      · rw [h3]
        constructor
        · intro h i hi1 hi2
          by_cases hik : i = k
          · rw [hik]; exact hwf
          · exact h i (by omega) hi2
        · intro h i hi1 hi2
          exact h i (by omega) hi2

/-- The branch for a canceled run always returns: at most 31 polls, a kill
exactly when the first 31 polls all report "not finished". -/
theorem cancelBranch_spec (p : Process) (fuel : Nat) (hfuel : 31 ≤ fuel) :
    ∃ e, cancelBranch p fuel = some e ∧ e.polls ≤ 31 ∧
      (e.killed = true ↔ ∀ i, i < 31 → p.waitForFinishedAfterCancel i = false) ∧
      (e.killed = true → e.waited = 3100 ∧ e.polls = 31 ∧ e.steps = killSteps) ∧
      (e.killed = false → e.waited ≤ 3000 ∧ e.steps =
        [Step.infoMessage "Scanning canceled, the oscap tool has been successfuly terminated."]) := by
  obtain ⟨e, he, _, h2, h3, h4, h5⟩ := escalationLoop_spec p 30 fuel 0 (by omega) (by omega)
  simp only [Nat.mul_zero] at he
  cases hk : e.killed with
  | true =>
    refine ⟨e, by simp [cancelBranch, he, hk], h2, ?_, fun _ => h4 hk, by simp [hk]⟩
    rw [hk] at h3
    constructor
    · intro _ i hi
      exact h3.mp rfl i (Nat.zero_le _) hi
    · intro _
      exact hk
  | false =>
    refine ⟨{ e with steps := e.steps ++
      [Step.infoMessage "Scanning canceled, the oscap tool has been successfuly terminated."] },
      by simp [cancelBranch, he, hk], h2, ?_, by simp [hk], ?_⟩
    · simp only [hk, Bool.false_eq_true, false_iff]
      intro hall
      have := h3.mpr (fun i _ hi => hall i hi)
      rw [hk] at this
      exact Bool.noConfusion this
    · intro _
      obtain ⟨h6, h7, _⟩ := h5 hk
      exact ⟨h6, by simp [h7]⟩

/-! ## Facts about `OscapScannerLocal::evaluate` -/

theorem getLast?_append_pair (l : List Step) (x y : Step) :
    (l ++ [x, y]).getLast? = some y := by
  rw [show l ++ [x, y] = (l ++ [x]) ++ [y] by simp]
  exact List.getLast?_concat _

theorem errorCount_append (a b : List Step) :
    errorCount (a ++ b) = errorCount a + errorCount b := by
  simp [errorCount, List.filter_append]

theorem errorCount_of_isOutput (l : List Step) (h : ∀ x ∈ l, x.isOutput = true) :
    errorCount l = 0 := by
  induction l with
  | nil => rfl
  | cons x rest ih =>
    have hx := h x (List.mem_cons_self _ _)
    have hrest := ih (fun y hy => h y (List.mem_cons_of_mem _ hy))
    cases x <;> simp_all [errorCount, Step.isOutput, List.filter_cons]

theorem not_mem_of_isOutput (l : List Step) (h : ∀ x ∈ l, x.isOutput = true) (y : Step)
    (hy : y.isOutput = false) : y ∉ l := by
  intro hmem
  rw [h y hmem] at hy
  exact Bool.noConfusion hy

theorem isOutput_of_mem_append (a b : List Step) (ha : ∀ x ∈ a, x.isOutput = true)
    (hb : ∀ x ∈ b, x.isOutput = true) : ∀ x ∈ a ++ b, x.isOutput = true := by
  intro x hx
  rcases List.mem_append.mp hx with h | h
  · exact ha x h
  · exact hb x h

/-- A run that is not canceled: the poll loop ends at poll `m` because the
process has finished, and the exit code picks the branch. -/
theorem evaluate_not_canceled (p : Process) (s : OscapScannerLocal) (m fuel : Nat)
    (hidle : s.mCancelRequested = false)
    (hrun : ∀ i, i < m → p.waitForFinished i = false ∧ (p.tick i).cancelDelivered = false)
    (hfin : p.waitForFinished m = true) (hfuel : m < fuel) :
    evaluate p fuel s =
      if p.exitCode = 1 then
        some ({ s with mCancelRequested := true },
          startSteps ++ readTicks p 0 m ++ [Step.exitCode] ++ watchStdErr p.stderrLeft ++
            [Step.errorMessage exitCodeOneError, Step.signalCompletion true])
      else
        some ({ s with mResults := p.resultFile, mReport := p.reportFile, mARF := p.arfFile },
          startSteps ++ readTicks p 0 m ++ [Step.exitCode] ++ finishSteps p ++
            [Step.signalCompletion false]) := by
  have hp := pollLoop_finished p m fuel 0
    (fun i hi => by rw [Nat.zero_add]; exact hrun i hi)
    (by rw [Nat.zero_add]; exact hfin) hfuel
  obtain ⟨c, r1, r2, r3⟩ := s
  simp only at hidle
  subst hidle
  unfold evaluate
  simp only [hp]
  split_ifs <;> simp_all

/-- A canceled run: the poll loop sees the flag at some iteration `j`, the
escalation branch follows, and completion is signalled as canceled. -/
theorem evaluate_cancel_path (p : Process) (s : OscapScannerLocal) (n fuel : Nat)
    (hrun : ∀ i, i ≤ n → p.waitForFinished i = false)
    (hcancel : s.mCancelRequested = true ∨ ∃ i, i ≤ n ∧ (p.tick i).cancelDelivered = true)
    (hfuel : n + 32 ≤ fuel) :
    ∃ j e, j ≤ n ∧ cancelBranch p fuel = some e ∧
      evaluate p fuel s = some ({ s with mCancelRequested := true },
        startSteps ++ (readTicks p 0 (j + 1) ++ cancelNotice) ++ e.steps ++
          [Step.signalCompletion true]) := by
  obtain ⟨j, hj, hp⟩ := pollLoop_canceled p n fuel 0 s.mCancelRequested
    (fun i hi => by rw [Nat.zero_add]; exact hrun i hi)
    (by
      rcases hcancel with h | ⟨i, hi, h⟩
      · exact Or.inl h
      · exact Or.inr ⟨i, hi, by rw [Nat.zero_add]; exact h⟩)
    (by omega)
  obtain ⟨e, he, _⟩ := cancelBranch_spec p fuel (by omega)
  refine ⟨j, e, hj, he, ?_⟩
  unfold evaluate
  simp only [hp, he, if_true]

theorem escalationLoop_steps (p : Process) (fuel k waited : Nat) (e : Escalation)
    (h : escalationLoop p fuel k waited = some e) :
    (e.killed = true ∧ e.steps = killSteps) ∨ (e.killed = false ∧ e.steps = []) := by
  induction fuel generalizing k waited with
  | zero => simp [escalationLoop] at h
  | succ fuel ih =>
    unfold escalationLoop at h
    by_cases hw : p.waitForFinishedAfterCancel k = true
    · simp only [hw, if_true, Option.some.injEq] at h
      rw [← h]
      exact Or.inr ⟨rfl, rfl⟩
    · simp only [hw, Bool.false_eq_true, if_false] at h
      by_cases hgt : waited + pollInterval > 3000
      · simp only [hgt, if_true, Option.some.injEq] at h
        rw [← h]
        exact Or.inl ⟨rfl, rfl⟩
      · simp only [hgt, if_false] at h
        exact ih _ _ h

/-- The steps of the escalation branch: either the warning and the kill, or
the one informational event. -/
theorem cancelBranch_steps (p : Process) (fuel : Nat) (e : Escalation)
    (h : cancelBranch p fuel = some e) :
    e.steps = killSteps ∨ e.steps =
      [Step.infoMessage "Scanning canceled, the oscap tool has been successfuly terminated."] := by
  unfold cancelBranch at h
  cases he : escalationLoop p fuel 0 0 with
  | none => simp [he] at h
  | some e1 =>
    simp only [he] at h
    rcases escalationLoop_steps p fuel 0 0 e1 he with ⟨hk, hs⟩ | ⟨hk, hs⟩
    · simp only [hk, Bool.not_true, Bool.false_eq_true, if_false, Option.some.injEq] at h
      rw [← h]
      exact Or.inl hs
    · simp only [hk, Bool.not_false, if_true, Option.some.injEq] at h
      rw [← h]
      exact Or.inr (by simp [hs])

theorem pollLoop_no_completion (p : Process) (fuel k : Nat) (c c1 : Bool) (steps : List Step)
    (h : pollLoop p fuel k c = some (c1, steps)) (b : Bool) :
    Step.signalCompletion b ∉ steps := by
  obtain ⟨j, hj⟩ := pollLoop_shape p fuel k c c1 steps h
  rcases hj with ⟨_, h2⟩ | ⟨_, h2⟩
  · rw [h2]
    exact not_mem_of_isOutput _ (isOutput_of_mem_readTicks p j k) (Step.signalCompletion b) rfl
  · rw [h2]
    intro hmem
    rcases List.mem_append.mp hmem with h3 | h3
    · exact not_mem_of_isOutput _ (isOutput_of_mem_readTicks p (j + 1) k) (Step.signalCompletion b) rfl h3
    · simp [cancelNotice] at h3

/-- Whenever `evaluate` returns, its steps end with the one completion signal,
which carries the final value of the flag. -/
theorem evaluate_shape (p : Process) (s : OscapScannerLocal) (fuel : Nat)
    (r : OscapScannerLocal) (steps : List Step)
    (h : evaluate p fuel s = some (r, steps)) :
    ∃ before, steps = before ++ [Step.signalCompletion r.mCancelRequested] ∧
      ∀ b, Step.signalCompletion b ∉ before := by
  have hstart : ∀ b, Step.signalCompletion b ∉ startSteps := by
    intro b; simp [startSteps]
  unfold evaluate at h
  cases hp : pollLoop p fuel 0 s.mCancelRequested with
  | none => simp [hp] at h
  | some res =>
    obtain ⟨c, polled⟩ := res
    have hpolled := pollLoop_no_completion p fuel 0 s.mCancelRequested c polled hp
    simp only [hp] at h
    cases c with
    | true =>
      simp only [if_true] at h
      cases he : cancelBranch p fuel with
      | none => simp [he] at h
      | some e =>
        simp only [he, Option.some.injEq, Prod.mk.injEq] at h
        have hsteps := cancelBranch_steps p fuel e he
        refine ⟨startSteps ++ polled ++ e.steps, ?_, ?_⟩
        · rw [← h.2, ← h.1]
        · intro b
          simp only [List.mem_append, not_or]
          refine ⟨⟨hstart b, hpolled b⟩, ?_⟩
          rcases hsteps with h1 | h1 <;> rw [h1] <;> simp [killSteps]
    | false =>
      simp only [Bool.false_eq_true, if_false] at h
      by_cases hexit : p.exitCode = 1
      · simp only [hexit, if_true, Option.some.injEq, Prod.mk.injEq] at h
        refine ⟨startSteps ++ polled ++ [Step.exitCode] ++ watchStdErr p.stderrLeft ++
            [Step.errorMessage exitCodeOneError], ?_, ?_⟩
        · rw [← h.2, ← h.1]
          simp
        · intro b
          simp only [List.mem_append, not_or]
          exact ⟨⟨⟨⟨hstart b, hpolled b⟩, by simp⟩,
            not_mem_of_isOutput _ (isOutput_of_mem_watchStdErr _) _ rfl⟩, by simp⟩
      · simp only [hexit, if_false, Option.some.injEq, Prod.mk.injEq] at h
        refine ⟨startSteps ++ polled ++ [Step.exitCode] ++ finishSteps p, ?_, ?_⟩
        · rw [← h.2, ← h.1]
        · intro b
          simp only [finishSteps, List.mem_append, not_or]
          exact ⟨⟨⟨hstart b, hpolled b⟩, by simp⟩,
            ⟨not_mem_of_isOutput _ (isOutput_of_mem_tryToReadLines _) _ rfl,
              not_mem_of_isOutput _ (isOutput_of_mem_watchStdErr _) _ rfl⟩, by simp⟩

/-- A run of `evaluate` returns once the flag is set at the start, a poll
reports the process finished, or an iteration delivers a `cancel()`. -/
theorem evaluate_isSome (p : Process) (s : OscapScannerLocal) (n fuel : Nat)
    (hstop : s.mCancelRequested = true ∨ p.waitForFinished n = true ∨
      (p.tick n).cancelDelivered = true)
    (hfuel : n + 32 ≤ fuel) :
    ∃ r steps, evaluate p fuel s = some (r, steps) := by
  have hsome := pollLoop_isSome p n fuel 0 s.mCancelRequested
    (by rw [Nat.zero_add]; exact hstop) (by omega)
  obtain ⟨e, he, _⟩ := cancelBranch_spec p fuel (by omega)
  unfold evaluate
  cases hp : pollLoop p fuel 0 s.mCancelRequested with
  | none => rw [hp] at hsome; exact Bool.noConfusion hsome
  | some res =>
    obtain ⟨c, polled⟩ := res
    cases c with
    | true => exact ⟨_, _, by simp only [he, if_true]; rfl⟩
    | false =>
      by_cases hexit : p.exitCode = 1
      · exact ⟨_, _, by simp only [Bool.false_eq_true, if_false, hexit, if_true]; rfl⟩
      · exact ⟨_, _, by simp only [Bool.false_eq_true, if_false, hexit]; rfl⟩

/-! ### Claims about `OscapScannerLocal::evaluate` -/

/-- C2: in a run of `evaluate` in which no cancellation is observed (the flag is
clear at the start and no `cancel()` is delivered before the process finishes
at poll `m`) and the exit code is 1, exactly one error event is emitted,
completion is signalled with the flag true and never as finished, no scratch
file is read and the buffers `mResults`, `mReport`, `mARF` keep their values. -/
theorem evaluate_exit_code_one (p : Process) (s : OscapScannerLocal) (m fuel : Nat)
    (hidle : s.mCancelRequested = false)
    (hrun : ∀ i, i < m → p.waitForFinished i = false ∧ (p.tick i).cancelDelivered = false)
    (hfin : p.waitForFinished m = true)
    (hexit : p.exitCode = 1)
    (hfuel : m < fuel) :
    ∃ r steps, evaluate p fuel s = some (r, steps) ∧
      errorCount steps = 1 ∧
      steps.getLast? = some (Step.signalCompletion true) ∧
      Step.signalCompletion false ∉ steps ∧
      (∀ f, Step.readAll f ∉ steps) ∧
      r.mCancelRequested = true ∧
      r.mResults = s.mResults ∧ r.mReport = s.mReport ∧ r.mARF = s.mARF := by
  have h := evaluate_not_canceled p s m fuel hidle hrun hfin hfuel
  rw [if_pos hexit] at h
  have hticks := isOutput_of_mem_readTicks p m 0
  have herr := isOutput_of_mem_watchStdErr p.stderrLeft
  refine ⟨_, _, h, ?_, getLast?_append_pair _ _ _, ?_, ?_, rfl, rfl, rfl, rfl⟩
  · simp only [errorCount_append, errorCount_of_isOutput _ hticks,
      errorCount_of_isOutput _ herr]
    rfl
  · simp only [List.mem_append, not_or]
    exact ⟨⟨⟨⟨by simp [startSteps], not_mem_of_isOutput _ hticks _ rfl⟩, by simp⟩,
      not_mem_of_isOutput _ herr _ rfl⟩, by simp⟩
  · intro f
    simp only [List.mem_append, not_or]
    exact ⟨⟨⟨⟨by simp [startSteps], not_mem_of_isOutput _ hticks _ rfl⟩, by simp⟩,
      not_mem_of_isOutput _ herr _ rfl⟩, by simp⟩

/-- C2 at a concrete input: a process finishing at the third poll with exit
code 1. -/
theorem evaluate_exit_code_one_witness :
    (finishingProcess 1).exitCode = 1 ∧
      ∃ r steps, evaluate (finishingProcess 1) 3 idleScanner = some (r, steps) ∧
        errorCount steps = 1 ∧
        steps.getLast? = some (Step.signalCompletion true) ∧
        Step.signalCompletion false ∉ steps ∧
        (∀ f, Step.readAll f ∉ steps) ∧
        r.mCancelRequested = true ∧
        r.mResults = idleScanner.mResults ∧ r.mReport = idleScanner.mReport ∧
        r.mARF = idleScanner.mARF :=
  ⟨by decide, evaluate_exit_code_one (finishingProcess 1) idleScanner 2 3
    (by decide) (by decide) (by decide) (by decide) (by decide)⟩

/-- C3: in a run of `evaluate` in which the cancellation flag is seen set during
an iteration of the poll loop (it is set at the start or a `cancel()` is
delivered at an iteration `i ≤ n`) while the polls `0 .. n` all report "not
finished", the run ends with completion signalled as canceled: no error event,
no completion signalled as finished, no inspection of the exit code, no scratch
file read, and the three buffers keep their values. -/
theorem evaluate_canceled_during_poll (p : Process) (s : OscapScannerLocal) (n fuel : Nat)
    (hrun : ∀ i, i ≤ n → p.waitForFinished i = false)
    (hcancel : s.mCancelRequested = true ∨ ∃ i, i ≤ n ∧ (p.tick i).cancelDelivered = true)
    (hfuel : n + 32 ≤ fuel) :
    ∃ r steps, evaluate p fuel s = some (r, steps) ∧
      r.mCancelRequested = true ∧
      steps.getLast? = some (Step.signalCompletion true) ∧
      errorCount steps = 0 ∧
      Step.signalCompletion false ∉ steps ∧
      Step.exitCode ∉ steps ∧
      (∀ f, Step.readAll f ∉ steps) ∧
      r.mResults = s.mResults ∧ r.mReport = s.mReport ∧ r.mARF = s.mARF := by
  obtain ⟨j, e, _, he, h⟩ := evaluate_cancel_path p s n fuel hrun hcancel hfuel
  have hticks := isOutput_of_mem_readTicks p (j + 1) 0
  have hsteps := cancelBranch_steps p fuel e he
  refine ⟨_, _, h, rfl, List.getLast?_concat _, ?_, ?_, ?_, ?_, rfl, rfl, rfl⟩
  · simp only [errorCount_append, errorCount_of_isOutput _ hticks]
    rcases hsteps with h1 | h1 <;> rw [h1] <;> rfl
  · simp only [List.mem_append, not_or]
    refine ⟨⟨⟨by simp [startSteps], not_mem_of_isOutput _ hticks _ rfl,
      by simp [cancelNotice]⟩, ?_⟩, by simp⟩
    rcases hsteps with h1 | h1 <;> rw [h1] <;> simp [killSteps]
  · simp only [List.mem_append, not_or]
    refine ⟨⟨⟨by simp [startSteps], not_mem_of_isOutput _ hticks _ rfl,
      by simp [cancelNotice]⟩, ?_⟩, by simp⟩
    rcases hsteps with h1 | h1 <;> rw [h1] <;> simp [killSteps]
  · intro f
    simp only [List.mem_append, not_or]
    refine ⟨⟨⟨by simp [startSteps], not_mem_of_isOutput _ hticks _ rfl,
      by simp [cancelNotice]⟩, ?_⟩, by simp⟩
    rcases hsteps with h1 | h1 <;> rw [h1] <;> simp [killSteps]

/-- C3 at a concrete input: the user cancels during the second poll interval
and the process answers the terminate request at once. -/
theorem evaluate_canceled_during_poll_witness :
    ∃ r steps, evaluate (canceledProcess (some 0)) 33 idleScanner = some (r, steps) ∧
      r.mCancelRequested = true ∧
      steps.getLast? = some (Step.signalCompletion true) ∧
      errorCount steps = 0 ∧
      Step.signalCompletion false ∉ steps ∧
      Step.exitCode ∉ steps ∧
      (∀ f, Step.readAll f ∉ steps) ∧
      r.mResults = idleScanner.mResults ∧ r.mReport = idleScanner.mReport ∧
      r.mARF = idleScanner.mARF :=
  evaluate_canceled_during_poll (canceledProcess (some 0)) idleScanner 1 33
    (by decide) (Or.inr ⟨1, by decide, by decide⟩) (by decide)

/-- C4: a run of `evaluate` that comes to an end (the flag is set at the start,
or some poll reports the process finished, or some iteration delivers a
`cancel()`) returns; and whenever `evaluate` returns, whatever the sequence of
poll results, cancellation observations and exit code, its steps are some steps
without a completion signal followed by exactly one completion signal, which is
the last step and carries the final value of `mCancelRequested`. -/
theorem evaluate_completion_last (p : Process) (s : OscapScannerLocal) (n fuel : Nat)
    (hstop : s.mCancelRequested = true ∨ p.waitForFinished n = true ∨
      (p.tick n).cancelDelivered = true)
    (hfuel : n + 32 ≤ fuel) :
    (∃ r steps, evaluate p fuel s = some (r, steps)) ∧
      ∀ (fuel1 : Nat) (r : OscapScannerLocal) (steps : List Step),
        evaluate p fuel1 s = some (r, steps) →
        ∃ before, steps = before ++ [Step.signalCompletion r.mCancelRequested] ∧
          ∀ b, Step.signalCompletion b ∉ before :=
  ⟨evaluate_isSome p s n fuel hstop hfuel, fun fuel1 r steps h => evaluate_shape p s fuel1 r steps h⟩

/-- C4 at a concrete input: a process finishing at the third poll with exit
code 0. -/
theorem evaluate_completion_last_witness :
    (∃ r steps, evaluate (finishingProcess 0) 34 idleScanner = some (r, steps)) ∧
      ∀ (fuel1 : Nat) (r : OscapScannerLocal) (steps : List Step),
        evaluate (finishingProcess 0) fuel1 idleScanner = some (r, steps) →
        ∃ before, steps = before ++ [Step.signalCompletion r.mCancelRequested] ∧
          ∀ b, Step.signalCompletion b ∉ before :=
  evaluate_completion_last (finishingProcess 0) idleScanner 2 34
    (Or.inr (Or.inl (by decide))) (by decide)

/-- C5: in a run of `evaluate` in which the cancellation flag is seen set during
the poll loop and the process reports "not finished" on all 31 polls of the
grace window, what follows the cancellation notice is exactly: the terminate
request that belongs to the notice, one warning ("The oscap process didn't
terminate in time, it will be killed instead."), the kill of the process, and
completion signalled as canceled. Before the notice only output of the process
is relayed; the "successfuly terminated" event and error events do not occur. -/
theorem evaluate_kill_after_grace_window (p : Process) (s : OscapScannerLocal) (n fuel : Nat)
    (hrun : ∀ i, i ≤ n → p.waitForFinished i = false)
    (hcancel : s.mCancelRequested = true ∨ ∃ i, i ≤ n ∧ (p.tick i).cancelDelivered = true)
    (hgrace : ∀ i, i < 31 → p.waitForFinishedAfterCancel i = false)
    (hfuel : n + 32 ≤ fuel) :
    ∃ r relayed steps, evaluate p fuel s = some (r, steps) ∧
      steps = startSteps ++ relayed ++
        [Step.infoMessage "Cancelation was requested! Terminating scanning...",
         Step.processTerminate,
         Step.warningMessage
           "The oscap process didn't terminate in time, it will be killed instead.",
         Step.processKill,
         Step.signalCompletion true] ∧
      (∀ x ∈ relayed, x.isOutput = true) ∧
      r.mCancelRequested = true ∧
      Step.infoMessage "Scanning canceled, the oscap tool has been successfuly terminated."
        ∉ steps ∧
      errorCount steps = 0 := by
  obtain ⟨j, e, _, he, h⟩ := evaluate_cancel_path p s n fuel hrun hcancel hfuel
  obtain ⟨e1, he1, _, h3, h4, _⟩ := cancelBranch_spec p fuel (by omega)
  rw [he] at he1
  cases he1
  have hk : e.killed = true := h3.mpr hgrace
  have hsteps : e.steps = killSteps := (h4 hk).2.2
  have hticks := isOutput_of_mem_readTicks p (j + 1) 0
  rw [hsteps] at h
  refine ⟨_, readTicks p 0 (j + 1), _, h, ?_, hticks, rfl, ?_, ?_⟩
  · simp [cancelNotice, killSteps]
  · simp only [List.mem_append, not_or]
    exact ⟨⟨⟨by decide, not_mem_of_isOutput _ hticks _ rfl, by decide⟩, by decide⟩,
      by decide⟩
  · simp only [errorCount_append, errorCount_of_isOutput _ hticks]
    rfl

/-- C5 at a concrete input: the user cancels during the second poll interval
and the process never answers the terminate request. -/
theorem evaluate_kill_after_grace_window_witness :
    ∃ r relayed steps, evaluate (canceledProcess none) 33 idleScanner = some (r, steps) ∧
      steps = startSteps ++ relayed ++
        [Step.infoMessage "Cancelation was requested! Terminating scanning...",
         Step.processTerminate,
         Step.warningMessage
           "The oscap process didn't terminate in time, it will be killed instead.",
         Step.processKill,
         Step.signalCompletion true] ∧
      (∀ x ∈ relayed, x.isOutput = true) ∧
      r.mCancelRequested = true ∧
      Step.infoMessage "Scanning canceled, the oscap tool has been successfuly terminated."
        ∉ steps ∧
      errorCount steps = 0 :=
  evaluate_kill_after_grace_window (canceledProcess none) idleScanner 1 33
    (by decide) (Or.inr ⟨1, by decide, by decide⟩) (by decide) (by decide)

/-- C6, as stated, fails: a run that is not canceled and ends with exit code 2
emits no error event, reads the artifacts and signals completion as finished
(flag false). -/
theorem evaluate_exit_code_two_finishes :
    (finishingProcess 2).exitCode = 2 ∧
      (evaluate (finishingProcess 2) 3 idleScanner).map
          (fun r => (r.1, errorCount r.2, r.2.getLast?)) =
        some ({ mCancelRequested := false, mResults := [1, 2], mReport := [3],
                mARF := [4, 5, 6] }, 0, some (Step.signalCompletion false)) := by
  decide

/-- C6, amended: in a run of `evaluate` that is not canceled the exit code
decides the outcome as follows: exit code 1 is reported as a tool evaluation
error (one error event, completion signalled as canceled/errored, buffers
untouched), and every other exit code, 0 or not, is reported as success: no
error event is emitted, the three artifacts are read and completion is
signalled as finished. -/
theorem evaluate_exit_code_decides (p : Process) (s : OscapScannerLocal) (m fuel : Nat)
    (hidle : s.mCancelRequested = false)
    (hrun : ∀ i, i < m → p.waitForFinished i = false ∧ (p.tick i).cancelDelivered = false)
    (hfin : p.waitForFinished m = true)
    (hfuel : m < fuel) :
    ∃ r steps, evaluate p fuel s = some (r, steps) ∧
      steps.getLast? = some (Step.signalCompletion r.mCancelRequested) ∧
      (p.exitCode = 1 → errorCount steps = 1 ∧ r.mCancelRequested = true ∧
        r.mResults = s.mResults ∧ r.mReport = s.mReport ∧ r.mARF = s.mARF) ∧
      (p.exitCode ≠ 1 → errorCount steps = 0 ∧ r.mCancelRequested = false ∧
        r.mResults = p.resultFile ∧ r.mReport = p.reportFile ∧ r.mARF = p.arfFile) := by
  have h := evaluate_not_canceled p s m fuel hidle hrun hfin hfuel
  have hticks := isOutput_of_mem_readTicks p m 0
  have herr := isOutput_of_mem_watchStdErr p.stderrLeft
  have hout := isOutput_of_mem_tryToReadLines p.stdoutLeft
  by_cases hexit : p.exitCode = 1
  · rw [if_pos hexit] at h
    refine ⟨_, _, h, getLast?_append_pair _ _ _, ?_, fun hne => absurd hexit hne⟩
    intro _
    refine ⟨?_, rfl, rfl, rfl, rfl⟩
    simp only [errorCount_append, errorCount_of_isOutput _ hticks,
      errorCount_of_isOutput _ herr]
    rfl
  · rw [if_neg hexit] at h
    refine ⟨_, _, h, ?_, fun he => absurd he hexit, ?_⟩
    · rw [List.getLast?_concat]
      simp only [hidle]
    · intro _
      refine ⟨?_, hidle, rfl, rfl, rfl⟩
      simp only [finishSteps, errorCount_append, errorCount_of_isOutput _ hticks,
        errorCount_of_isOutput _ herr, errorCount_of_isOutput _ hout]
      rfl

/-- C6 (amended) at a concrete input: a process finishing at the third poll
with exit code 0. -/
theorem evaluate_exit_code_decides_witness :
    ∃ r steps, evaluate (finishingProcess 0) 3 idleScanner = some (r, steps) ∧
      steps.getLast? = some (Step.signalCompletion r.mCancelRequested) ∧
      ((finishingProcess 0).exitCode = 1 → errorCount steps = 1 ∧ r.mCancelRequested = true ∧
        r.mResults = idleScanner.mResults ∧ r.mReport = idleScanner.mReport ∧
        r.mARF = idleScanner.mARF) ∧
      ((finishingProcess 0).exitCode ≠ 1 → errorCount steps = 0 ∧ r.mCancelRequested = false ∧
        r.mResults = (finishingProcess 0).resultFile ∧
        r.mReport = (finishingProcess 0).reportFile ∧
        r.mARF = (finishingProcess 0).arfFile) :=
  evaluate_exit_code_decides (finishingProcess 0) idleScanner 2 3
    (by decide) (by decide) (by decide) (by decide)

/-- C8: in a run of `evaluate` in which no cancellation is observed and the exit
code is not 1, after the poll loop and the inspection of the exit code the
remaining stdout lines and then the remaining stderr lines are relayed, no
scratch file being read up to there; then the three scratch files are read into
`mResults`, `mReport` and `mARF`, the last informational event is "Scanning has
been finished!", and completion is signalled with the flag false. -/
theorem evaluate_finished_reads_artifacts (p : Process) (s : OscapScannerLocal)
    (m fuel : Nat)
    (hidle : s.mCancelRequested = false)
    (hrun : ∀ i, i < m → p.waitForFinished i = false ∧ (p.tick i).cancelDelivered = false)
    (hfin : p.waitForFinished m = true)
    (hexit : p.exitCode ≠ 1)
    (hfuel : m < fuel) :
    ∃ r, evaluate p fuel s = some (r,
        (startSteps ++ readTicks p 0 m ++ [Step.exitCode] ++
          tryToReadLines p.stdoutLeft ++ watchStdErr p.stderrLeft) ++
        [Step.infoMessage "The oscap tool has finished. Reading results...",
         Step.readAll ScratchFile.resultFile,
         Step.readAll ScratchFile.reportFile,
         Step.readAll ScratchFile.arfFile,
         Step.infoMessage "Scanning has been finished!",
         Step.signalCompletion false]) ∧
      (∀ f, Step.readAll f ∉ startSteps ++ readTicks p 0 m ++ [Step.exitCode] ++
          tryToReadLines p.stdoutLeft ++ watchStdErr p.stderrLeft) ∧
      r.mCancelRequested = false ∧
      r.mResults = p.resultFile ∧ r.mReport = p.reportFile ∧ r.mARF = p.arfFile := by
  have h := evaluate_not_canceled p s m fuel hidle hrun hfin hfuel
  rw [if_neg hexit] at h
  have hticks := isOutput_of_mem_readTicks p m 0
  have herr := isOutput_of_mem_watchStdErr p.stderrLeft
  have hout := isOutput_of_mem_tryToReadLines p.stdoutLeft
  refine ⟨{ s with mResults := p.resultFile, mReport := p.reportFile, mARF := p.arfFile },
    ?_, ?_, hidle, rfl, rfl, rfl⟩
  · rw [h]
    simp [finishSteps]
  · intro f
    simp only [List.mem_append, not_or]
    exact ⟨⟨⟨⟨by simp [startSteps], not_mem_of_isOutput _ hticks _ rfl⟩, by simp⟩,
      not_mem_of_isOutput _ hout _ rfl⟩, not_mem_of_isOutput _ herr _ rfl⟩

/-- C8 at a concrete input: a process finishing at the third poll with exit
code 2, one stdout line and one stderr line being left to read. -/
theorem evaluate_finished_reads_artifacts_witness :
    ∃ r, evaluate (finishingProcess 2) 3 idleScanner = some (r,
        (startSteps ++ readTicks (finishingProcess 2) 0 2 ++ [Step.exitCode] ++
          tryToReadLines [("B", "fail")] ++ watchStdErr ["E: last"]) ++
        [Step.infoMessage "The oscap tool has finished. Reading results...",
         Step.readAll ScratchFile.resultFile,
         Step.readAll ScratchFile.reportFile,
         Step.readAll ScratchFile.arfFile,
         Step.infoMessage "Scanning has been finished!",
         Step.signalCompletion false]) ∧
      (∀ f, Step.readAll f ∉ startSteps ++ readTicks (finishingProcess 2) 0 2 ++
          [Step.exitCode] ++ tryToReadLines [("B", "fail")] ++ watchStdErr ["E: last"]) ∧
      r.mCancelRequested = false ∧
      r.mResults = [1, 2] ∧ r.mReport = [3] ∧ r.mARF = [4, 5, 6] :=
  evaluate_finished_reads_artifacts (finishingProcess 2) idleScanner 2 3
    (by decide) (by decide) (by decide) (by decide) (by decide)

/-- C10: the escalation branch of `evaluate` (poll interval 100 ms, threshold
`waited > 3000`) always returns after at most 31 polls; the process is killed
if and only if the first 31 polls all report "not finished", and then the
accumulated wait is 3100 ms and the steps are the warning followed by the kill;
if one of the first 31 polls reports "finished", the only step is the
informational "Scanning canceled, the oscap tool has been successfuly
terminated.": no kill and no warning. -/
theorem cancelBranch_bounded (p : Process) (fuel : Nat) (hfuel : 31 ≤ fuel) :
    ∃ e, cancelBranch p fuel = some e ∧
      e.polls ≤ 31 ∧
      (e.killed = true ↔ ∀ i, i < 31 → p.waitForFinishedAfterCancel i = false) ∧
      (Step.processKill ∈ e.steps ↔ ∀ i, i < 31 → p.waitForFinishedAfterCancel i = false) ∧
      ((∀ i, i < 31 → p.waitForFinishedAfterCancel i = false) →
        e.waited = 3100 ∧ e.polls = 31 ∧ e.steps =
          [Step.warningMessage
             "The oscap process didn't terminate in time, it will be killed instead.",
           Step.processKill]) ∧
      ((∃ i, i < 31 ∧ p.waitForFinishedAfterCancel i = true) →
        e.waited ≤ 3000 ∧ e.steps =
          [Step.infoMessage
             "Scanning canceled, the oscap tool has been successfuly terminated."]) := by
  obtain ⟨e, he, h2, h3, h4, h5⟩ := cancelBranch_spec p fuel hfuel
  refine ⟨e, he, h2, h3, ?_, ?_, ?_⟩
  · rw [← h3]
    cases hk : e.killed with
    | true =>
      rw [(h4 hk).2.2]
      simp [killSteps]
    | false =>
      rw [(h5 hk).2]
      simp
  · intro hall
    exact h4 (h3.mpr hall)
  · rintro ⟨i, hi, hfin⟩
    apply h5
    cases hk : e.killed with
    | false => rfl
    | true =>
      have := h3.mp hk i hi
      rw [hfin] at this
      exact Bool.noConfusion this

/-- C10 at a concrete input: a process that answers the terminate request at
the 31st poll. -/
theorem cancelBranch_bounded_witness :
    ∃ e, cancelBranch (canceledProcess (some 30)) 31 = some e ∧
      e.polls ≤ 31 ∧
      (e.killed = true ↔
        ∀ i, i < 31 → (canceledProcess (some 30)).waitForFinishedAfterCancel i = false) ∧
      (Step.processKill ∈ e.steps ↔
        ∀ i, i < 31 → (canceledProcess (some 30)).waitForFinishedAfterCancel i = false) ∧
      ((∀ i, i < 31 → (canceledProcess (some 30)).waitForFinishedAfterCancel i = false) →
        e.waited = 3100 ∧ e.polls = 31 ∧ e.steps =
          [Step.warningMessage
             "The oscap process didn't terminate in time, it will be killed instead.",
           Step.processKill]) ∧
      ((∃ i, i < 31 ∧ (canceledProcess (some 30)).waitForFinishedAfterCancel i = true) →
        e.waited ≤ 3000 ∧ e.steps =
          [Step.infoMessage
             "Scanning canceled, the oscap tool has been successfuly terminated."]) :=
  cancelBranch_bounded (canceledProcess (some 30)) 31 (by decide)

/-! ## Facts about `std::map` and `MainWindow::refreshProfiles` -/

theorem findDataFrom_none (items : List (String × Option String)) (data : Option String)
    (i : Int) (hno : ¬ ∃ item ∈ items, qStringEq item.2 data = true) :
    findDataFrom items data i = -1 := by
  induction items generalizing i with
  | nil => rfl
  | cons first rest ih =>
    rw [findDataFrom]
    have h5 : ¬ qStringEq first.2 data = true :=
      fun hc => hno ⟨first, List.mem_cons_self _ _, hc⟩
    rw [if_neg h5]
    exact ih (i + 1) (fun ⟨it, hm, hq⟩ => hno ⟨it, List.mem_cons_of_mem _ hm, hq⟩)

/-- Why the identifiers are asked to be non-empty, as XCCDF identifiers are: were
a profile with the empty string as identifier selected, it would still be
listed after `refreshProfiles`, but the entry selected afterwards would be
"(default)", because `findData` takes the null string of the first entry for
the empty string. -/
theorem refreshProfiles_empty_id_not_kept :
    (refreshProfiles codePointLess (some emptyIdModel) { items := [], currentIndex := -1 }).map
        (fun box => box.setCurrentIndex 1) = some boxWithEmptyId ∧
      boxWithEmptyId.itemData boxWithEmptyId.currentIndex = some "" ∧
      refreshProfiles codePointLess (some emptyIdModel) boxWithEmptyId =
        some { items := [("(default)", none), ("", some ""), ("a", some "a")],
               currentIndex := 0 } ∧
      QComboBox.itemData
        { items := [("(default)", none), ("", some ""), ("a", some "a")],
          currentIndex := 0 } 0 = none := by
  decide

end ScapWorkbench
